import Mathlib

/-!
Verification of `extrair_pdf.py`: a two-stage PDF time-clock table extractor
(structured Docling extractor, PyMuPDF text/regex fallback, orchestrator).

The Python code is shallowly embedded: strings become `List Char` / `String`,
pandas DataFrames become lists of cell rows, raised exceptions become `Option`
failures, and the regular expressions of the source are implemented as
executable functions with Python `re` semantics.  Character classes (`\w`,
`\s`, `\d`, `str.lower`) follow Python's Unicode rules restricted to the
Latin-1 range, which covers every character the program's fixed Portuguese
keyword sets, labels and boilerplate literals can produce.
-/

set_option maxRecDepth 8192

/-! ### Python character classes (Latin-1 fragment) -/

/-- Python regex `\s` / `str.isspace` on the Latin-1 range:
TAB..CR, FS..US, space, NEL (U+0085) and NBSP (U+00A0). -/
def isPySpace (c : Char) : Bool :=
  let n := c.toNat
  (9 ≤ n && n ≤ 13) || (28 ≤ n && n ≤ 31) || n == 32 || n == 133 || n == 160

/-- Python regex `\d` (Unicode decimal digits) on the Latin-1 range: `0`-`9`. -/
def isPyDigit (c : Char) : Bool :=
  48 ≤ c.toNat && c.toNat ≤ 57

/-- Python regex `\w` (alphanumerics plus underscore) on the Latin-1 range:
ASCII alphanumerics, `_`, the signs ª ² ³ µ ¹ º ¼ ½ ¾ and the accented
letters À-ÿ except × and ÷. -/
def isWordChar (c : Char) : Bool :=
  let n := c.toNat
  (48 ≤ n && n ≤ 57) || (65 ≤ n && n ≤ 90) || (97 ≤ n && n ≤ 122) || n == 95 ||
  n == 170 || n == 178 || n == 179 || n == 181 || n == 185 || n == 186 ||
  n == 188 || n == 189 || n == 190 ||
  (192 ≤ n && n ≤ 255 && n != 215 && n != 247)

/-- Python `str.lower` on the Latin-1 range: `A`-`Z` and À-Þ (except ×)
gain 32, everything else is unchanged. -/
def pyLowerChar (c : Char) : Char :=
  let n := c.toNat
  if (65 ≤ n && n ≤ 90) || (192 ≤ n && n ≤ 222 && n != 215) then
    Char.ofNat (n + 32)
  else c

/-- Python `str.lower` of a whole string. -/
def pyLower (s : String) : String :=
  String.mk (s.data.map pyLowerChar)

/-! ### Generic string helpers shared by the embedded regexes -/

/-- Does `pat` occur literally at the head of `l`? -/
def startsWith : List Char → List Char → Bool
  | [], _ => true
  | _ :: _, [] => false
  | a :: as, b :: bs => a == b && startsWith as bs

/-- Case-insensitive (`re.IGNORECASE`) variant of `startsWith`. -/
def startsWithCI : List Char → List Char → Bool
  | [], _ => true
  | _ :: _, [] => false
  | a :: as, b :: bs => pyLowerChar a == pyLowerChar b && startsWithCI as bs

/-- Python `needle in hay` substring test. -/
def containsSub (needle : List Char) : List Char → Bool
  | [] => startsWith needle []
  | c :: t => startsWith needle (c :: t) || containsSub needle t

/-- Python `str.strip()`: drop leading and trailing whitespace. -/
def pyStrip (l : List Char) : List Char :=
  ((l.dropWhile isPySpace).reverse.dropWhile isPySpace).reverse

/-- State of the whitespace-run collapser: outside a run, one whitespace
character seen so far (kept verbatim if the run stops at length one), or
inside a run of length at least two (already emitted as a single space). -/
inductive WsState where
  | norm
  | one (p : Char)
  | long
  deriving DecidableEq

/-- Worker for `re.sub(r'\s{2,}', ' ', _)`: a run of two or more whitespace
characters becomes one space, a lone whitespace character stays as it is. -/
def collapseGo : List Char → WsState → List Char
  | [], WsState.norm => []
  | [], WsState.one p => [p]
  | [], WsState.long => []
  | c :: t, WsState.norm =>
      if isPySpace c then collapseGo t (WsState.one c) else c :: collapseGo t WsState.norm
  | c :: t, WsState.one p =>
      if isPySpace c then ' ' :: collapseGo t WsState.long
      else p :: c :: collapseGo t WsState.norm
  | c :: t, WsState.long =>
      if isPySpace c then collapseGo t WsState.long else c :: collapseGo t WsState.norm

/-- `re.sub(r'\s{2,}', ' ', _)` from the source. -/
def collapseWs (l : List Char) : List Char :=
  collapseGo l WsState.norm

/-! ### `limpar_nome` (Text Normalizer, lines 119-125 of the source) -/

/-- The day-type annotation alternatives of the trailing-strip regex in
`limpar_nome`, matched case-insensitively. -/
def dayLabels : List String :=
  ["Domingo", "Sábado", "Feriado", "Folga", "REGISTRO AUSENTE",
   "FALTA INJUSTIFICADA", "JORNADA INCOMPLETA"]

/-- Nonempty run of whitespace characters (`\s+`). -/
def isSpaceRun (l : List Char) : Bool :=
  !l.isEmpty && l.all isPySpace

/-- Nonempty run of word characters (`\w+`). -/
def isWordRun (l : List Char) : Bool :=
  !l.isEmpty && l.all isWordChar

/-- Membership in `(\s+\w+)?`: empty, or whitespace run followed by word run. -/
def isGroup1 (l : List Char) : Bool :=
  l.isEmpty ||
    (List.range (l.length + 1)).any (fun k => isSpaceRun (l.take k) && isWordRun (l.drop k))

/-- Case-insensitive equality with one of the day-type labels. -/
def isDayLabel (l : List Char) : Bool :=
  dayLabels.any (fun d => pyLower (String.mk l) == pyLower d)

/-- Does `(\s+\w+)?\s+(<labels>)?\s*` (with `re.IGNORECASE`) match the whole
list `l`?  This is exactly the condition for the trailing-strip regex of
`limpar_nome` to match from a given start position to `$`. -/
def acceptTail (l : List Char) : Bool :=
  (List.range (l.length + 1)).any (fun i =>
    isGroup1 (l.take i) &&
    (List.range ((l.drop i).length + 1)).any (fun j =>
      isSpaceRun ((l.drop i).take j) &&
      (List.range (((l.drop i).drop j).length + 1)).any (fun k =>
        ((((l.drop i).drop j).take k).isEmpty || isDayLabel (((l.drop i).drop j).take k)) &&
        (((l.drop i).drop j).drop k).all isPySpace)))

/-- `re.sub(r'(\s+\w+)?\s+(Domingo|...)?\s*$', '', _)`: every match of this
pattern ends at the end of the string, so at most the single leftmost match
is removed; `find?` yields the leftmost viable start position. -/
def stripTrailingTag (l : List Char) : List Char :=
  match (List.range (l.length + 1)).find? (fun i => acceptTail (l.drop i)) with
  | some i => l.take i
  | none => l

/-- The fixed accented-letter class written out in the source's
`[^\w\sÁÀÃÂÉÈÊÍÌÓÒÕÔÚÙÇ\-]` character class. -/
def nomeAccents : List Char := "ÁÀÃÂÉÈÊÍÌÓÒÕÔÚÙÇ".data

/-- Characters kept by `re.sub(r'[^\w\sÁÀÃÂÉÈÊÍÌÓÒÕÔÚÙÇ\-]', ' ', _)`. -/
def keepNomeChar (c : Char) : Bool :=
  isWordChar c || isPySpace c || nomeAccents.contains c || c == '-'

/-- `limpar_nome` (source lines 119-125): replace newline/semicolon/colon by
a space, strip one trailing annotation match and surrounding whitespace,
blank out characters outside the permitted class, collapse whitespace runs,
and trim. -/
def limpar_nome (texto : String) : String :=
  let t1 := texto.data.map (fun c => if c == '\n' || c == ';' || c == ':' then ' ' else c)
  let t2 := pyStrip (stripTrailingTag t1)
  let t3 := t2.map (fun c => if keepNomeChar c then c else ' ')
  String.mk (pyStrip (collapseWs t3))

example : limpar_nome "Ana Folga!" = "Ana Folga" := by decide
example : limpar_nome "Ana Folga" = "Ana" := by decide
example : limpar_nome "  João   Silva  " = "João" := by decide
example : limpar_nome "João Silva" = "João Silva" := by decide
example : limpar_nome "Maria Dias Domingo" = "Maria" := by decide

/-! ### Data model: cells, frames, records -/

/-- One DataFrame cell as the Row Filter and cleanup passes see it: a value
whose `str(...)` form is a text, the float `nan` used as the null sentinel
(whose `str` form is `"nan"`), or a value whose string conversion raises. -/
inductive Cell where
  | txt (s : String)
  | nan
  | exc
  deriving DecidableEq

/-- A pandas DataFrame produced by `tabela.to_pandas`: a rectangular grid
given by its column count and its rows. -/
structure DF where
  ncols : Nat
  rows : List (List Cell)
  deriving DecidableEq

/-- The final 7-field attendance record, one spreadsheet row. -/
structure Record where
  nome : String
  data : String
  entrManha : String
  saidManha : String
  entrTarde : String
  saidTarde : String
  total : String
  deriving DecidableEq

/-- `NUM_COLUNAS_ESPERADO = len(COLUNAS_NOMES)` from the source. -/
def NUM_COLUNAS_ESPERADO : Nat := 7

/-- What `Document.from_file(pdf_path)` delivers to the Docling extractor:
either the call (or anything downstream inside the `try`) raises, or a list
of tables, each of which `to_pandas` converts successfully (`some`) or not
(`none`, making the extractor skip that table). -/
inductive DocResult where
  | raises
  | ok (tables : List (Option DF))
  deriving DecidableEq

/-! ### Row Filter (`row_contains_keywords`, source lines 73-87) -/

/-- The fixed keyword list of `row_contains_keywords`. -/
def keywords : List String :=
  ["nome", "data", "entr.manha", "governo", "instituição", "página",
   "emissão", "estado de mato grosso", "relação de registro",
   "said.manha", "entr.tarde", "totalnome"]

/-- `str(item).lower()` of one cell; `none` when the conversion raises. -/
def cellLowerStr : Cell → Option String
  | Cell.txt s => some (pyLower s)
  | Cell.nan => some "nan"
  | Cell.exc => none

/-- `row_contains_keywords(row)`: walk the cells; a raising conversion makes
the row count as noise, as does any cell whose lowered string form contains
one of the keywords as a substring. -/
def row_contains_keywords : List Cell → Bool
  | [] => false
  | c :: t =>
    match cellLowerStr c with
    | none => true
    | some ls =>
      if keywords.any (fun k => containsSub k.data ls.data) then true
      else row_contains_keywords t

/-! ### Cleanup passes of the Docling pipeline -/

/-- Worker for deleting every non-overlapping occurrence of a literal
pattern; the counter skips the remaining characters of a found occurrence. -/
def deleteSubGo (pat : List Char) : List Char → Nat → List Char
  | [], _ => []
  | _ :: t, k+1 => deleteSubGo pat t k
  | c :: t, 0 =>
    if !pat.isEmpty && startsWith pat (c :: t) then deleteSubGo pat t (pat.length - 1)
    else c :: deleteSubGo pat t 0

/-- `re.sub(<literal>, '', s)`: delete all occurrences of a literal. -/
def deleteSub (pat : List Char) (l : List Char) : List Char :=
  deleteSubGo pat l 0

/-- `re.sub(r'^\s*$', '', s)`: a whitespace-only string becomes empty,
anything else is unchanged (pandas `replace` applies this per cell). -/
def blankToEmpty (s : String) : String :=
  if s.data.all isPySpace then "" else s

/-- `.replace(r'^\s*$', '', regex=True).replace(['nan', 'None'], '',
regex=True)` on one text cell: blank out whitespace-only values, then delete
the substrings `nan` and `None` (pandas treats the listed literals as
regexes, so they are removed wherever they occur). -/
def replaceEmptyAndNull : Cell → Cell
  | Cell.txt s =>
      Cell.txt (String.mk (deleteSub "None".data (deleteSub "nan".data (blankToEmpty s).data)))
  | c => c

/-- The footer-noise literals of `limpar_ruidos`; each regex alternative is
such a literal followed by `.*` (rest of the line). -/
def ruidoLiterals : List (List Char) :=
  ["MT PARTICIPAÇÕES S.A".data, "PARQUE NOVO MT".data, "Instituição".data,
   "Governo".data, "Página".data, "Emissão".data, "Estado de Mato Grosso".data]

/-- Worker for the footer-noise regex: in scanning mode a position starting
with one of the literals switches to swallowing mode, which drops characters
up to (but excluding) the next newline. -/
def stripRuidoGo : List Char → Bool → List Char
  | [], _ => []
  | c :: t, true =>
    if c == '\n' then c :: stripRuidoGo t false else stripRuidoGo t true
  | c :: t, false =>
    if ruidoLiterals.any (fun p => startsWith p (c :: t)) then stripRuidoGo t true
    else c :: stripRuidoGo t false

/-- `limpar_ruidos` (source lines 130-133): delete boilerplate runs to end of
line, collapse whitespace runs, trim. -/
def limpar_ruidos (texto : String) : String :=
  String.mk (pyStrip (collapseWs (stripRuidoGo texto.data false)))

/-- `str(texto)` of a cell; `none` when the conversion raises, which the
outer `try` of the extractor turns into a `None` result. -/
def cellStr : Cell → Option String
  | Cell.txt s => some s
  | Cell.nan => some "nan"
  | Cell.exc => none

/-- `df_final["Nome"] = df_final["Nome"].apply(limpar_nome)` on one row:
apply the Text Normalizer to column 0. -/
def applyNome : List Cell → Option (List Cell)
  | [] => some []
  | c :: t => (cellStr c).map (fun s => Cell.txt (limpar_nome s) :: t)

/-- `df_final[col] = df_final[col].apply(limpar_ruidos)` over all columns,
on one row; the result is a row of plain strings. -/
def applyRuidosRow (row : List Cell) : Option (List String) :=
  row.mapM (fun c => (cellStr c).map limpar_ruidos)

/-! ### Date patterns -/

/-- Exactly the ten characters `\d{2}/\d{2}/\d{4}`. -/
def isDateListExact : List Char → Bool
  | [a, b, s1, c, d, s2, e, f, g, h] =>
    isPyDigit a && isPyDigit b && s1 == '/' && isPyDigit c && isPyDigit d &&
    s2 == '/' && isPyDigit e && isPyDigit f && isPyDigit g && isPyDigit h
  | _ => false

/-- `re.match(r'\d{2}/\d{2}/\d{4}', s)`: the pattern matches at the start of
the string (pandas `str.match` anchors only at the beginning). -/
def dateAtStart (s : String) : Bool :=
  isDateListExact (s.data.take 10)

/-- The spec's `DD/MM/YYYY` "matches exactly": the whole string is one date
pattern. -/
def isExactDate (s : String) : Bool :=
  isDateListExact s.data

/-- `df_final[df_final['Data'].str.match(r'\d{2}/\d{2}/\d{4}', na=False)]`
on one row of strings: column 1 starts with the date pattern. -/
def dataPrefixOk (row : List String) : Bool :=
  dateAtStart (row.getD 1 "")

/-- Read a cleaned 7-column string row into the named record schema
(`df_final.columns = COLUNAS_NOMES`). -/
def rowToRecord (row : List String) : Record :=
  { nome := row.getD 0 "", data := row.getD 1 "",
    entrManha := row.getD 2 "", saidManha := row.getD 3 "",
    entrTarde := row.getD 4 "", saidTarde := row.getD 5 "",
    total := row.getD 6 "" }

/-! ### Structured Table Extractor (`extrair_com_docling`, lines 50-147) -/

/-- Width normalization (source lines 100-104): more than 7 columns are cut
to the first 7, fewer are padded on the right with `np.nan` columns. -/
def normalizeWidth (df : DF) : DF :=
  if df.ncols > NUM_COLUNAS_ESPERADO then
    { ncols := NUM_COLUNAS_ESPERADO, rows := df.rows.map (List.take NUM_COLUNAS_ESPERADO) }
  else if df.ncols < NUM_COLUNAS_ESPERADO then
    { ncols := NUM_COLUNAS_ESPERADO,
      rows := df.rows.map (· ++ List.replicate (NUM_COLUNAS_ESPERADO - df.ncols) Cell.nan) }
  else df

/-- `df_tabela.empty` in pandas: no rows or no columns. -/
def dfEmpty (df : DF) : Bool :=
  df.rows.isEmpty || df.ncols == 0

/-- The per-table loop (source lines 89-109): skip failed conversions and
empty tables, normalize the width, drop keyword rows, concatenate. -/
def processTables (tables : List (Option DF)) : List (List Cell) :=
  tables.foldl (fun acc t =>
    match t with
    | none => acc
    | some df =>
      if dfEmpty df then acc
      else acc ++ (normalizeWidth df).rows.filter (fun r => !row_contains_keywords r)) []

/-- `extrair_com_docling(pdf_path)`.  The runtime facts the Python code reads
from its environment are explicit arguments: whether the Docling import
succeeded, whether the file exists, and what `Document.from_file` yields. -/
def extrair_com_docling (doclingAvailable fileExists : Bool) (doc : DocResult) :
    Option (List Record) :=
  if doclingAvailable = false then none
  else if fileExists = false then none
  else
    match doc with
    | DocResult.raises => none
    | DocResult.ok tables =>
      if tables.isEmpty then none
      else
        let grid := processTables tables
        if grid.isEmpty then none
        else
          match (grid.map (fun row => row.map replaceEmptyAndNull)).mapM applyNome with
          | none => none
          | some gNome =>
            match gNome.mapM applyRuidosRow with
            | none => none
            | some gClean => some ((gClean.filter dataPrefixOk).map rowToRecord)

example :
    extrair_com_docling true true (DocResult.ok [some
      { ncols := 7,
        rows := [[Cell.txt "Nome", Cell.txt "Data", Cell.txt "Entr.Manha", Cell.txt "x",
                  Cell.txt "y", Cell.txt "z", Cell.txt "w"],
                 [Cell.txt "Ana", Cell.txt "01/03/2024", Cell.txt "08:00:00",
                  Cell.txt "12:00:00", Cell.txt "13:00:00", Cell.txt "18:00:00",
                  Cell.txt "08:00"]] }]) =
      some [{ nome := "Ana", data := "01/03/2024", entrManha := "08:00:00",
              saidManha := "12:00:00", entrTarde := "13:00:00",
              saidTarde := "18:00:00", total := "08:00" }] := by decide

/-! ### Fallback Text Extractor (`extrair_com_pymupdf`, lines 153-216) -/

/-- What `fitz.open` and the per-page `get_text` calls yield: the open call
raises, or a document whose pages each yield a text (`some`) or raise
(`none`). -/
inductive FitzResult where
  | openRaises
  | doc (pages : List (Option String))
  deriving DecidableEq

/-- `"\n".join(textos)`. -/
def joinPages : List String → List Char
  | [] => []
  | [s] => s.data
  | s :: rest => s.data ++ '\n' :: joinPages rest

/-- Worker for `re.sub(r'\n{2,}', '\n', _)`: since the replacement is itself
a newline, every run of newlines collapses to a single one; the flag records
whether the previous character was a newline. -/
def collapseNlGo : List Char → Bool → List Char
  | [], _ => []
  | c :: t, true =>
    if c == '\n' then collapseNlGo t true else c :: collapseNlGo t false
  | c :: t, false =>
    if c == '\n' then '\n' :: collapseNlGo t true else c :: collapseNlGo t false

/-- The two literals of the letterhead regex
`MT PARTICIPAÇÕES S\.A.*?Relação de registro no período .*?\n` (DOTALL). -/
def headerLit1 : List Char := "MT PARTICIPAÇÕES S.A".data

/-- Second literal of the letterhead regex (note the trailing space). -/
def headerLit2 : List Char := "Relação de registro no período ".data

/-- The suffix right after the first occurrence of `pat` in `l`, if any. -/
def afterFirst (pat : List Char) : List Char → Option (List Char)
  | [] => if pat.isEmpty then some [] else none
  | c :: t =>
    if startsWith pat (c :: t) then some ((c :: t).drop pat.length)
    else afterFirst pat t

/-- Length of the lazy letterhead match starting at the head of `l`:
the first literal, then (non-greedily) up to the first occurrence of the
second literal, then up to and including the first newline after it. -/
def headerMatchLen (l : List Char) : Option Nat :=
  if startsWith headerLit1 l then
    match afterFirst headerLit2 (l.drop headerLit1.length) with
    | none => none
    | some r2 =>
      match afterFirst ['\n'] r2 with
      | none => none
      | some r3 => some (l.length - r3.length)
  else none

/-- `re.sub` of the letterhead regex with `''`: at each scanning position a
completed lazy match is swallowed (the counter holds the characters of the
match still to drop), otherwise the character is kept. -/
def removeHeader1Go : List Char → Nat → List Char
  | [], _ => []
  | _ :: t, k+1 => removeHeader1Go t k
  | c :: t, 0 =>
    match headerMatchLen (c :: t) with
    | some m => removeHeader1Go t (m - 1)
    | none => c :: removeHeader1Go t 0

/-- The case-insensitive column-header literal removed by the second header
`re.sub` (source line 178). -/
def headerLit3 : List Char :=
  "Entr.Manha Saíd.Manha Entr.Tarde Said.Tarde TotalNome Data".data

/-- Worker deleting every occurrence of a literal case-insensitively
(`re.IGNORECASE`). -/
def deleteSubCIGo (pat : List Char) : List Char → Nat → List Char
  | [], _ => []
  | _ :: t, k+1 => deleteSubCIGo pat t k
  | c :: t, 0 =>
    if !pat.isEmpty && startsWithCI pat (c :: t) then deleteSubCIGo pat t (pat.length - 1)
    else c :: deleteSubCIGo pat t 0

/-- The whole text-preparation pipeline of the fallback extractor
(source lines 172-178): join pages with newlines, map tabs to spaces,
collapse newline runs, strip the letterhead block and the column-header
run. -/
def pdfText (texts : List String) : List Char :=
  deleteSubCIGo headerLit3
    (removeHeader1Go
      (collapseNlGo ((joinPages texts).map (fun c => if c == '\t' then ' ' else c)) false)
      0) 0

/-- Exactly the eight characters `\d{2}:\d{2}:\d{2}`. -/
def isTimeListExact : List Char → Bool
  | [a, b, s1, c, d, s2, e, f] =>
    isPyDigit a && isPyDigit b && s1 == ':' && isPyDigit c && isPyDigit d &&
    s2 == ':' && isPyDigit e && isPyDigit f
  | _ => false

/-- `isTimeListExact` on a `String`, the `HH:MM:SS` shape of the spec. -/
def isTimeStr (s : String) : Bool :=
  isTimeListExact s.data

/-- `re.finditer(r'\d{2}/\d{2}/\d{4}', text)`: start offsets of the
non-overlapping date matches, scanning left to right; after a match the scan
resumes past its ten characters (the skip counter). -/
def findDatesGo : List Char → Nat → Nat → List Nat
  | [], _, _ => []
  | _ :: t, i, k+1 => findDatesGo t (i + 1) k
  | c :: t, i, 0 =>
    if isDateListExact ((c :: t).take 10) then i :: findDatesGo t (i + 1) 9
    else findDatesGo t (i + 1) 0

/-- Start offsets of all date matches in document order. -/
def findDates (l : List Char) : List Nat :=
  findDatesGo l 0 0

/-- `re.findall(r'\d{2}:\d{2}:\d{2}', snippet)`: the matched timestamps, in
order, non-overlapping. -/
def findTimesGo : List Char → Nat → List String
  | [], _ => []
  | _ :: t, k+1 => findTimesGo t k
  | c :: t, 0 =>
    if isTimeListExact ((c :: t).take 8) then
      String.mk ((c :: t).take 8) :: findTimesGo t 7
    else findTimesGo t 0

/-- All timestamp matches of a snippet. -/
def findTimes (l : List Char) : List String :=
  findTimesGo l 0

/-- `re.search(r'\d{2}:\d{2}:\d{2}', snippet)`: offset of the first
timestamp match, if any. -/
def firstTimeIdx : List Char → Option Nat
  | [] => none
  | c :: t =>
    if isTimeListExact ((c :: t).take 8) then some 0
    else (firstTimeIdx t).map (· + 1)

/-- Python `l[-5:]`. -/
def takeLast (n : Nat) (l : List α) : List α :=
  l.drop (l.length - n)

/-- `while len(times) < 5: times.append('00:00:00')`. -/
def padTimes (ts : List String) : List String :=
  ts ++ List.replicate (5 - ts.length) "00:00:00"

/-- `text[max(0, m.start() - 400):m.end()]` for a date match starting at
`i`: the window of up to 400 characters before the match plus its ten
characters (natural subtraction is Python's `max(0, i - 400)`). -/
def snippetAt (text : List Char) (i : Nat) : List Char :=
  (text.take (i + 10)).drop (i - 400)

/-- The five timestamps attached to the date match at `i`: the last five
found in the snippet, padded at the tail with the sentinel `'00:00:00'`. -/
def timesAt (text : List Char) (i : Nat) : List String :=
  padTimes (takeLast 5 (findTimes (snippetAt text i)))

/-- The candidate name of the snippet (source lines 188-191): the text
before the first timestamp (or the whole snippet), stripped, characters
outside the permitted class blanked, whitespace runs collapsed, trimmed. -/
def nomeCand (snippet : List Char) : String :=
  let raw := match firstTimeIdx snippet with
    | some j => pyStrip (snippet.take j)
    | none => pyStrip snippet
  String.mk (pyStrip (collapseWs (raw.map (fun c => if keepNomeChar c then c else ' '))))

/-- One `registros.append({...})` entry for the date match at offset `i`. -/
def buildRegistro (text : List Char) (i : Nat) : Record :=
  let ts := timesAt text i
  { nome := nomeCand (snippetAt text i),
    data := String.mk ((text.drop i).take 10),
    entrManha := ts.getD 0 "", saidManha := ts.getD 1 "",
    entrTarde := ts.getD 2 "", saidTarde := ts.getD 3 "",
    total := ts.getD 4 "" }

/-- The DataFrame post-processing (source lines 207-209): whitespace-only
cells become empty, then the name gets its whitespace runs collapsed and is
trimmed once more. -/
def postRecord (r : Record) : Record :=
  { nome := String.mk (pyStrip (collapseWs (blankToEmpty r.nome).data)),
    data := blankToEmpty r.data,
    entrManha := blankToEmpty r.entrManha, saidManha := blankToEmpty r.saidManha,
    entrTarde := blankToEmpty r.entrTarde, saidTarde := blankToEmpty r.saidTarde,
    total := blankToEmpty r.total }

/-- `extrair_com_pymupdf(pdf_path)` instrumented with resource accounting:
the second component is `true` exactly when no document handle is left open
when control returns (either none was opened, or `doc.close()` ran).  In the
source, `doc.close()` (line 170) is reached only if every `page.get_text`
call succeeded. -/
def extrair_com_pymupdf_handle (pymupdfAvailable fileExists : Bool) (fz : FitzResult) :
    Option (List Record) × Bool :=
  if pymupdfAvailable = false then (none, true)
  else if fileExists = false then (none, true)
  else
    match fz with
    | FitzResult.openRaises => (none, true)
    | FitzResult.doc pages =>
      match pages.mapM id with
      | none => (none, false)
      | some texts =>
        let text := pdfText texts
        let registros := (findDates text).map (buildRegistro text)
        if registros.isEmpty then (none, true)
        else (some (registros.map postRecord), true)

/-- `extrair_com_pymupdf(pdf_path)`: the value the caller sees. -/
def extrair_com_pymupdf (pymupdfAvailable fileExists : Bool) (fz : FitzResult) :
    Option (List Record) :=
  (extrair_com_pymupdf_handle pymupdfAvailable fileExists fz).1

/-! ### Extraction Orchestrator (`extrair_tabelas`, lines 222-228) -/

/-- The runtime environment of one `extrair_tabelas(pdf_path)` call. -/
structure Env where
  doclingAvailable : Bool
  pymupdfAvailable : Bool
  fileExists : Bool
  doc : DocResult
  fitz : FitzResult
  deriving DecidableEq

/-- `extrair_tabelas(pdf_path)`: Docling first (only when available), then
the PyMuPDF fallback whenever the result is `None` or an empty frame. -/
def extrair_tabelas (env : Env) : Option (List Record) :=
  let df := if env.doclingAvailable then
    extrair_com_docling env.doclingAvailable env.fileExists env.doc else none
  match df with
  | none => extrair_com_pymupdf env.pymupdfAvailable env.fileExists env.fitz
  | some d =>
    if d.isEmpty then extrair_com_pymupdf env.pymupdfAvailable env.fileExists env.fitz
    else some d

example :
    extrair_com_pymupdf true true (FitzResult.doc
      [some "João Silva 09:00:00 12:00:00 13:00:00 18:00:00 08:00:00 01/03/2024"]) =
      some [{ nome := "João Silva", data := "01/03/2024", entrManha := "09:00:00",
              saidManha := "12:00:00", entrTarde := "13:00:00",
              saidTarde := "18:00:00", total := "08:00:00" }] := by decide

example :
    extrair_com_pymupdf true true (FitzResult.doc [some "Ana 01/03/2024"]) =
      some [{ nome := "Ana 01 03 2024", data := "01/03/2024", entrManha := "00:00:00",
              saidManha := "00:00:00", entrTarde := "00:00:00",
              saidTarde := "00:00:00", total := "00:00:00" }] := by decide

/-! ### Helper lemmas -/

/-- A successful fallback extraction always carries at least one record:
`if not registros: return None` guards the nonempty case. -/
theorem pymupdf_some_ne_nil (a f : Bool) (fz : FitzResult) (rs : List Record)
    (h : extrair_com_pymupdf a f fz = some rs) : rs ≠ [] := by
  unfold extrair_com_pymupdf extrair_com_pymupdf_handle at h
  split at h
  · simp at h
  · split at h
    · simp at h
    · split at h
      · simp at h
      · split at h
        · simp at h
        · dsimp only at h
          split at h
          · simp at h
          · next hne =>
            simp only [Option.some.injEq] at h
            intro hnil
            apply hne
            rw [← h] at hnil
            rw [List.map_eq_nil_iff] at hnil
            rw [hnil]
            rfl

/-- A Docling result is only ever produced when the capability is
available. -/
theorem docling_some_available (a f : Bool) (doc : DocResult) (rs : List Record)
    (h : extrair_com_docling a f doc = some rs) : a = true := by
  cases a with
  | false => simp [extrair_com_docling] at h
  | true => rfl

/-! ### Claim C1: orchestrator fallback policy -/

/-- Claim C1: the orchestrator attempts Docling only when available; when the
Docling attempt yields `None` or an empty record set the fallback runs and
its value is returned; a non-empty Docling result is returned as is; and a
successful fallback result is never empty, so the returned value is the
first non-empty result, or `None` when both attempts fail. -/
theorem claim1 (env : Env) :
    (env.doclingAvailable = false →
      extrair_tabelas env = extrair_com_pymupdf env.pymupdfAvailable env.fileExists env.fitz)
  ∧ (extrair_com_docling env.doclingAvailable env.fileExists env.doc = none →
      extrair_tabelas env = extrair_com_pymupdf env.pymupdfAvailable env.fileExists env.fitz)
  ∧ (extrair_com_docling env.doclingAvailable env.fileExists env.doc = some [] →
      extrair_tabelas env = extrair_com_pymupdf env.pymupdfAvailable env.fileExists env.fitz)
  ∧ (∀ d, extrair_com_docling env.doclingAvailable env.fileExists env.doc = some d →
      d ≠ [] → extrair_tabelas env = some d)
  ∧ (∀ rs, extrair_com_pymupdf env.pymupdfAvailable env.fileExists env.fitz = some rs →
      rs ≠ []) := by
  refine ⟨?_, ?_, ?_, ?_, fun rs h => pymupdf_some_ne_nil _ _ _ rs h⟩
  · intro ha
    unfold extrair_tabelas
    rw [ha]
    simp
  · intro hd
    unfold extrair_tabelas
    cases hAvail : env.doclingAvailable with
    | false => simp
    | true =>
      rw [hAvail] at hd
      simp [hd]
  · intro hd
    unfold extrair_tabelas
    have hAvail := docling_some_available _ _ _ _ hd
    rw [hAvail] at hd ⊢
    rw [if_pos rfl, hd]
    simp
  · intro d hd hne
    unfold extrair_tabelas
    have hAvail := docling_some_available _ _ _ _ hd
    rw [hAvail] at hd ⊢
    rw [if_pos rfl, hd]
    simp only [List.isEmpty_iff]
    rw [if_neg hne]

/-- Witness for C1 at a concrete environment without the Docling
capability: the fallback value is returned. -/
theorem claim1_witness :
    extrair_tabelas
      { doclingAvailable := false, pymupdfAvailable := true, fileExists := true,
        doc := DocResult.raises, fitz := FitzResult.doc [some "Ana 01/03/2024"] } =
    extrair_com_pymupdf true true (FitzResult.doc [some "Ana 01/03/2024"]) :=
  (claim1 { doclingAvailable := false, pymupdfAvailable := true, fileExists := true,
            doc := DocResult.raises,
            fitz := FitzResult.doc [some "Ana 01/03/2024"] }).1 rfl

/-! ### Claim C5: column width normalization -/

/-- Claim C5: on a rectangular table, width normalization yields exactly 7
columns: each row keeps only its first 7 cells and is right-padded with the
`nan` sentinel up to width 7. -/
theorem claim5 (df : DF) (hrect : ∀ r ∈ df.rows, r.length = df.ncols) :
    (normalizeWidth df).ncols = NUM_COLUNAS_ESPERADO
  ∧ (normalizeWidth df).rows =
      df.rows.map (fun r =>
        r.take NUM_COLUNAS_ESPERADO ++
        List.replicate (NUM_COLUNAS_ESPERADO - df.ncols) Cell.nan)
  ∧ (∀ r ∈ (normalizeWidth df).rows, r.length = NUM_COLUNAS_ESPERADO) := by
  unfold normalizeWidth
  by_cases hgt : df.ncols > NUM_COLUNAS_ESPERADO
  · rw [if_pos hgt]
    have hz : NUM_COLUNAS_ESPERADO - df.ncols = 0 := Nat.sub_eq_zero_of_le (le_of_lt hgt)
    refine ⟨rfl, ?_, ?_⟩
    · rw [hz]
      simp
    · intro r hr
      simp only [List.mem_map] at hr
      obtain ⟨r0, hr0, hrr⟩ := hr
      have := hrect r0 hr0
      subst hrr
      rw [List.length_take, this]
      unfold NUM_COLUNAS_ESPERADO at hgt ⊢
      omega
  · rw [if_neg hgt]
    by_cases hlt : df.ncols < NUM_COLUNAS_ESPERADO
    · rw [if_pos hlt]
      refine ⟨rfl, ?_, ?_⟩
      · refine List.map_congr_left ?_
        intro r hr
        have hlen := hrect r hr
        have : r.take NUM_COLUNAS_ESPERADO = r := by
          apply List.take_of_length_le
          omega
        rw [this]
      · intro r hr
        simp only [List.mem_map] at hr
        obtain ⟨r0, hr0, hrr⟩ := hr
        have := hrect r0 hr0
        subst hrr
        rw [List.length_append, List.length_replicate, this]
        omega
    · rw [if_neg hlt]
      have heq : df.ncols = NUM_COLUNAS_ESPERADO := by omega
      refine ⟨heq, ?_, ?_⟩
      · have hz : NUM_COLUNAS_ESPERADO - df.ncols = 0 := by omega
        rw [hz]
        simp only [List.replicate_zero, List.append_nil]
        conv_lhs => rw [← List.map_id df.rows]
        refine List.map_congr_left ?_
        intro r hr
        have hlen := hrect r hr
        have : r.take NUM_COLUNAS_ESPERADO = r := by
          apply List.take_of_length_le
          omega
        rw [this, id]
      · intro r hr
        rw [hrect r hr, heq]

/-- Witness for C5: a 9-column table is truncated to its first 7 cells and a
5-column table is padded with two `nan` cells. -/
theorem claim5_witness :
    (normalizeWidth { ncols := 9, rows := [[Cell.txt "a", Cell.txt "b", Cell.txt "c",
        Cell.txt "d", Cell.txt "e", Cell.txt "f", Cell.txt "g", Cell.txt "h",
        Cell.txt "i"]] }).rows =
      [[Cell.txt "a", Cell.txt "b", Cell.txt "c", Cell.txt "d", Cell.txt "e",
        Cell.txt "f", Cell.txt "g", Cell.txt "h",
        Cell.txt "i"]].map (fun r =>
          r.take NUM_COLUNAS_ESPERADO ++ List.replicate (NUM_COLUNAS_ESPERADO - 9) Cell.nan)
  ∧ (normalizeWidth { ncols := 5, rows := [[Cell.txt "a", Cell.txt "b", Cell.txt "c",
        Cell.txt "d", Cell.txt "e"]] }).rows =
      [[Cell.txt "a", Cell.txt "b", Cell.txt "c", Cell.txt "d",
        Cell.txt "e"]].map (fun r =>
          r.take NUM_COLUNAS_ESPERADO ++ List.replicate (NUM_COLUNAS_ESPERADO - 5) Cell.nan) :=
  ⟨(claim5 { ncols := 9, rows := [[Cell.txt "a", Cell.txt "b", Cell.txt "c", Cell.txt "d",
      Cell.txt "e", Cell.txt "f", Cell.txt "g", Cell.txt "h", Cell.txt "i"]] }
      (by decide)).2.1,
   (claim5 { ncols := 5, rows := [[Cell.txt "a", Cell.txt "b", Cell.txt "c", Cell.txt "d",
      Cell.txt "e"]] } (by decide)).2.1⟩

/-! ### Claim C6: fallback extraction of the canonical one-record text -/

/-- Claim C6: on text containing exactly one date match, the fallback
extractor produces exactly one record, with the name before the first
timestamp, the date of the match, the first four timestamps in the four
time columns and the fifth as the total. -/
theorem claim6 :
    extrair_com_pymupdf true true (FitzResult.doc
      [some "João Silva 09:00:00 12:00:00 13:00:00 18:00:00 08:00:00 01/03/2024"]) =
      some [{ nome := "João Silva", data := "01/03/2024", entrManha := "09:00:00",
              saidManha := "12:00:00", entrTarde := "13:00:00",
              saidTarde := "18:00:00", total := "08:00:00" }] := by
  decide

/-! ### Claim C8: Docling failure paths surface as None -/

/-- Claim C8: the structured extractor returns `None` when the capability is
missing, when the input file does not exist, and when the parsing attempt
raises; being a total function into `Option`, no error propagates. -/
theorem claim8 (a f : Bool) (doc : DocResult) :
    (a = false → extrair_com_docling a f doc = none)
  ∧ (f = false → extrair_com_docling a f doc = none)
  ∧ (doc = DocResult.raises → extrair_com_docling a f doc = none) := by
  refine ⟨?_, ?_, ?_⟩
  · intro h
    subst h
    simp [extrair_com_docling]
  · intro h
    subst h
    cases a <;> simp [extrair_com_docling]
  · intro h
    subst h
    cases a <;> cases f <;> simp [extrair_com_docling]

/-- Witness for C8: a missing file and a raising parse both yield `None`. -/
theorem claim8_witness :
    extrair_com_docling true false (DocResult.ok []) = none
  ∧ extrair_com_docling true true DocResult.raises = none :=
  ⟨(claim8 true false (DocResult.ok [])).2.1 rfl,
   (claim8 true true DocResult.raises).2.2 rfl⟩

/-! ### Claim C9: the document handle leaks on the error path -/

/-- Claim C9 fails on the code: when a per-page `get_text` raises, the
exception skips `doc.close()` (line 170) and is caught at line 214, so the
attempt returns `None` with the handle still open. -/
theorem claim9_leaked_handle :
    extrair_com_pymupdf_handle true true (FitzResult.doc [none]) = (none, false) := by
  decide

/-! ### Counterexamples for C2, C3, C4 -/

/-- A well-formed Docling table whose data row carries a date cell with
trailing text after the `DD/MM/YYYY` prefix. -/
def docTableOverlongDate : DocResult :=
  DocResult.ok [some
    { ncols := 7,
      rows := [[Cell.txt "Ana", Cell.txt "01/03/2024 08:00", Cell.txt "08:00:00",
                Cell.txt "12:00:00", Cell.txt "13:00:00", Cell.txt "18:00:00",
                Cell.txt "08:00"]] }]

/-- Counterexample to C2 as stated: the structured extractor keeps a record
whose date field does not match `DD/MM/YYYY` exactly, because the filter
`str.match` only anchors at the start of the cell. -/
theorem claim2_counterexample :
    extrair_com_docling true true docTableOverlongDate =
      some [{ nome := "Ana", data := "01/03/2024 08:00", entrManha := "08:00:00",
              saidManha := "12:00:00", entrTarde := "13:00:00",
              saidTarde := "18:00:00", total := "08:00" }]
  ∧ isExactDate "01/03/2024 08:00" = false := by
  decide

/-- Counterexample to C3 as stated: `limpar_nome` is not idempotent.  The
first pass turns `!` into a space after the trailing-annotation regex has
already run, so a second pass strips the newly exposed trailing label. -/
theorem claim3_counterexample :
    limpar_nome (limpar_nome "Ana Folga!") ≠ limpar_nome "Ana Folga!" := by
  decide

/-- Counterexample to C4 as stated: a row whose cells are all distinct from
every keyword (case-insensitively) and which carries a valid date is still
classified as noise, because the filter tests substring containment, not
equality: `sobrenome lima` contains `nome`. -/
theorem claim4_counterexample :
    row_contains_keywords [Cell.txt "SOBRENOME LIMA", Cell.txt "01/03/2024"] = true
  ∧ keywords.all (fun k => pyLower "SOBRENOME LIMA" != k && pyLower "01/03/2024" != k) = true
  ∧ isExactDate "01/03/2024" = true := by
  decide

/-! ### Lemmas about the regex scanners -/

/-- Every offset reported by the date scanner points at a full date match,
and lies past the skip region. -/
theorem findDatesGo_spec (l : List Char) (i k p : Nat)
    (hp : p ∈ findDatesGo l i k) :
    i + k ≤ p ∧ isDateListExact ((l.drop (p - i)).take 10) = true := by
  induction l generalizing i k with
  | nil => simp [findDatesGo] at hp
  | cons c t ih =>
    cases k with
    | succ k =>
      have hp2 : p ∈ findDatesGo t (i + 1) k := hp
      obtain ⟨hle, hdt⟩ := ih (i + 1) k hp2
      constructor
      · omega
      · have hsub : p - i = (p - (i + 1)) + 1 := by omega
        rw [hsub, List.drop_succ_cons]
        exact hdt
    | zero =>
      have hp2 : p ∈ (if isDateListExact ((c :: t).take 10) then
          i :: findDatesGo t (i + 1) 9 else findDatesGo t (i + 1) 0) := hp
      split at hp2
      · next hdate =>
        rcases List.mem_cons.mp hp2 with heq | htail
        · subst heq
          refine ⟨by omega, ?_⟩
          rw [Nat.sub_self, List.drop_zero]
          exact hdate
        · obtain ⟨hle, hdt⟩ := ih (i + 1) 9 htail
          refine ⟨by omega, ?_⟩
          have hsub : p - i = (p - (i + 1)) + 1 := by omega
          rw [hsub, List.drop_succ_cons]
          exact hdt
      · obtain ⟨hle, hdt⟩ := ih (i + 1) 0 hp2
        refine ⟨by omega, ?_⟩
        have hsub : p - i = (p - (i + 1)) + 1 := by omega
        rw [hsub, List.drop_succ_cons]
        exact hdt

/-- Every offset in `findDates` addresses ten characters forming a date. -/
theorem findDates_spec (l : List Char) (p : Nat) (hp : p ∈ findDates l) :
    isDateListExact ((l.drop p).take 10) = true := by
  have := findDatesGo_spec l 0 0 p hp
  simpa using this.2

/-- Every string collected by the timestamp scanner is an `HH:MM:SS`
pattern. -/
theorem findTimesGo_mem (l : List Char) (k : Nat) (s : String)
    (hs : s ∈ findTimesGo l k) : isTimeStr s = true := by
  induction l generalizing k with
  | nil => simp [findTimesGo] at hs
  | cons c t ih =>
    cases k with
    | succ k => exact ih k hs
    | zero =>
      have hs2 : s ∈ (if isTimeListExact ((c :: t).take 8) then
          String.mk ((c :: t).take 8) :: findTimesGo t 7 else findTimesGo t 0) := hs
      split at hs2
      · next htime =>
        rcases List.mem_cons.mp hs2 with heq | htail
        · subst heq
          exact htime
        · exact ih 7 htail
      · exact ih 0 hs2

/-- Every member of `findTimes` matches `HH:MM:SS`. -/
theorem findTimes_mem (l : List Char) (s : String) (hs : s ∈ findTimes l) :
    isTimeStr s = true :=
  findTimesGo_mem l 0 s hs

/-! ### Lemmas about the snippet timestamps -/

/-- `l[-5:]` keeps at most five elements. -/
theorem takeLast_length (n : Nat) (l : List α) :
    (takeLast n l).length = min n l.length := by
  unfold takeLast
  rw [List.length_drop]
  omega

/-- Members of `l[-5:]` are members of `l`. -/
theorem mem_takeLast (n : Nat) (l : List α) (a : α) (ha : a ∈ takeLast n l) :
    a ∈ l :=
  List.mem_of_mem_drop ha

/-- The padding loop fills up to exactly five entries. -/
theorem padTimes_length (ts : List String) (h : ts.length ≤ 5) :
    (padTimes ts).length = 5 := by
  unfold padTimes
  rw [List.length_append, List.length_replicate]
  omega

/-- A padded entry is an original timestamp or the `'00:00:00'` sentinel. -/
theorem mem_padTimes (ts : List String) (s : String) (hs : s ∈ padTimes ts) :
    s ∈ ts ∨ s = "00:00:00" := by
  unfold padTimes at hs
  rcases List.mem_append.mp hs with h | h
  · exact Or.inl h
  · exact Or.inr (List.eq_of_mem_replicate h)

/-- The five timestamps attached to a date match. -/
theorem timesAt_length (text : List Char) (i : Nat) :
    (timesAt text i).length = 5 := by
  unfold timesAt
  apply padTimes_length
  rw [takeLast_length]
  omega

/-- Each attached timestamp comes from the snippet or is the sentinel. -/
theorem mem_timesAt (text : List Char) (i : Nat) (s : String)
    (hs : s ∈ timesAt text i) :
    s ∈ findTimes (snippetAt text i) ∨ s = "00:00:00" := by
  unfold timesAt at hs
  rcases mem_padTimes _ _ hs with h | h
  · exact Or.inl (mem_takeLast _ _ _ h)
  · exact Or.inr h

/-- Each attached timestamp matches `HH:MM:SS`. -/
theorem timesAt_isTime (text : List Char) (i : Nat) (s : String)
    (hs : s ∈ timesAt text i) : isTimeStr s = true := by
  rcases mem_timesAt text i s hs with h | h
  · exact findTimes_mem _ _ h
  · rw [h]
    decide

/-! ### Claim C7: snippet window and timestamp padding -/

/-- Claim C7: the snippet of a date match at offset `i` is the window of up
to 400 characters before the match plus the ten characters of the match (a
contiguous piece of the text); the attached timestamps are always exactly
five: the last five found in the snippet, any missing trailing positions
padded with the fixed sentinel `'00:00:00'`. -/
theorem claim7 (text : List Char) (i : Nat) :
    (snippetAt text i).length ≤ 410
  ∧ (i + 10 ≤ text.length → snippetAt text i ++ text.drop (i + 10) = text.drop (i - 400))
  ∧ (timesAt text i).length = 5
  ∧ timesAt text i =
      takeLast 5 (findTimes (snippetAt text i)) ++
      List.replicate (5 - (takeLast 5 (findTimes (snippetAt text i))).length) "00:00:00"
  ∧ (∀ t ∈ timesAt text i, t ∈ findTimes (snippetAt text i) ∨ t = "00:00:00")
  ∧ (5 ≤ (findTimes (snippetAt text i)).length →
      timesAt text i = takeLast 5 (findTimes (snippetAt text i))) := by
  refine ⟨?_, ?_, timesAt_length text i, rfl, fun t ht => mem_timesAt text i t ht, ?_⟩
  · unfold snippetAt
    rw [List.length_drop, List.length_take]
    omega
  · intro hle
    unfold snippetAt
    conv_rhs => rw [← List.take_append_drop (i + 10) text]
    rw [List.drop_append_of_le_length]
    rw [List.length_take]
    omega
  · intro h5
    unfold timesAt padTimes
    rw [takeLast_length]
    have hz : 5 - min 5 (findTimes (snippetAt text i)).length = 0 := by omega
    rw [hz]
    simp

/-- A decimal digit is never Python whitespace. -/
theorem digit_not_space (a : Char) (ha : isPyDigit a = true) : isPySpace a = false := by
  unfold isPyDigit at ha
  simp only [Bool.and_eq_true, decide_eq_true_eq] at ha
  cases hb : isPySpace a with
  | false => rfl
  | true =>
    exfalso
    unfold isPySpace at hb
    simp only [Bool.or_eq_true, Bool.and_eq_true, decide_eq_true_eq, beq_iff_eq] at hb
    omega

/-- A timestamp match is not whitespace-only (its first character is a
digit). -/
theorem isTimeListExact_not_space (l : List Char) (h : isTimeListExact l = true) :
    l.all isPySpace = false := by
  match l, h with
  | [a, b, s1, c, d, s2, e, f], h =>
    simp only [isTimeListExact, Bool.and_eq_true] at h
    have ha : isPyDigit a = true := h.1.1.1.1.1.1.1
    rw [List.all_cons, digit_not_space a ha]
    rfl

/-- A date match is not whitespace-only (its first character is a digit). -/
theorem isDateListExact_not_space (l : List Char) (h : isDateListExact l = true) :
    l.all isPySpace = false := by
  match l, h with
  | [a, b, s1, c, d, s2, e, f, g, hh], h =>
    simp only [isDateListExact, Bool.and_eq_true] at h
    have ha : isPyDigit a = true := h.1.1.1.1.1.1.1.1.1
    rw [List.all_cons, digit_not_space a ha]
    rfl

/-- The blank-clearing pass keeps any cell with a non-whitespace character. -/
theorem blankToEmpty_of_not_space (s : String) (h : s.data.all isPySpace = false) :
    blankToEmpty s = s := by
  unfold blankToEmpty
  rw [h]
  simp

/-- `getD` at an in-range position is a member. -/
theorem getD_mem_of_lt (l : List α) (n : Nat) (d : α) (h : n < l.length) :
    l.getD n d ∈ l := by
  induction l generalizing n with
  | nil => simp at h
  | cons a t ih =>
    cases n with
    | zero => exact List.mem_cons_self a t
    | succ n =>
      rw [List.getD_cons_succ]
      exact List.mem_cons_of_mem a (ih n (by simpa using h))

/-! ### Shape of successful extractor results -/

/-- A successful fallback result is the post-processed record list built
from the date matches of the prepared page text. -/
theorem pymupdf_some_shape (a f : Bool) (fz : FitzResult) (rs : List Record)
    (h : extrair_com_pymupdf a f fz = some rs) :
    ∃ texts : List String,
      rs = ((findDates (pdfText texts)).map (buildRegistro (pdfText texts))).map postRecord := by
  unfold extrair_com_pymupdf extrair_com_pymupdf_handle at h
  split at h
  · simp at h
  · split at h
    · simp at h
    · split at h
      · simp at h
      · split at h
        · simp at h
        · next texts heq =>
          dsimp only at h
          split at h
          · simp at h
          · simp only [Option.some.injEq] at h
            exact ⟨texts, h.symm⟩

/-- A successful Docling result is the record list built from the cleaned
string grid filtered by the date-column test. -/
theorem docling_some_shape (a f : Bool) (doc : DocResult) (rs : List Record)
    (h : extrair_com_docling a f doc = some rs) :
    ∃ gClean : List (List String), rs = (gClean.filter dataPrefixOk).map rowToRecord := by
  unfold extrair_com_docling at h
  split at h
  · simp at h
  · split at h
    · simp at h
    · split at h
      · simp at h
      · split at h
        · simp at h
        · dsimp only at h
          split at h
          · simp at h
          · split at h
            · simp at h
            · split at h
              · simp at h
              · next gClean heq =>
                simp only [Option.some.injEq] at h
                exact ⟨gClean, h.symm⟩

/-! ### Claim C2 (amended): date-field invariants of both extractors -/

/-- Amended claim C2: every record returned by the fallback extractor has a
date matching `DD/MM/YYYY` exactly; every record returned by the structured
extractor has a date field that begins with `DD/MM/YYYY` (the filter
`str.match` anchors only at the start, so trailing characters survive), and
all rows failing that prefix test are dropped. -/
theorem claim2_amended (a f : Bool) (doc : DocResult) (b g : Bool) (fz : FitzResult) :
    (∀ rs, extrair_com_docling a f doc = some rs → ∀ r ∈ rs, dateAtStart r.data = true)
  ∧ (∀ rs, extrair_com_pymupdf b g fz = some rs → ∀ r ∈ rs, isExactDate r.data = true) := by
  constructor
  · intro rs h r hr
    obtain ⟨g2, hshape⟩ := docling_some_shape a f doc rs h
    subst hshape
    rcases List.mem_map.mp hr with ⟨row, hrow, hrec⟩
    have hok := (List.mem_filter.mp hrow).2
    subst hrec
    exact hok
  · intro rs h r hr
    obtain ⟨texts, hshape⟩ := pymupdf_some_shape b g fz rs h
    subst hshape
    rcases List.mem_map.mp hr with ⟨r0, hr0, hpost⟩
    rcases List.mem_map.mp hr0 with ⟨i, hi, hbuild⟩
    subst hpost
    subst hbuild
    have hd := findDates_spec (pdfText texts) i hi
    have hok : isDateListExact (String.mk (((pdfText texts).drop i).take 10)).data = true := hd
    have hnb := isDateListExact_not_space _ hok
    show isExactDate (blankToEmpty (String.mk (((pdfText texts).drop i).take 10))) = true
    rw [blankToEmpty_of_not_space _ hnb]
    exact hok

/-- Witness for the amended C2 at concrete inputs on both branches. -/
theorem claim2_witness :
    dateAtStart "01/03/2024 08:00" = true ∧ isExactDate "01/03/2024" = true :=
  ⟨(claim2_amended true true docTableOverlongDate true true
      (FitzResult.doc [some "Ana 01/03/2024"])).1
      [{ nome := "Ana", data := "01/03/2024 08:00", entrManha := "08:00:00",
         saidManha := "12:00:00", entrTarde := "13:00:00",
         saidTarde := "18:00:00", total := "08:00" }]
      (by decide)
      { nome := "Ana", data := "01/03/2024 08:00", entrManha := "08:00:00",
        saidManha := "12:00:00", entrTarde := "13:00:00",
        saidTarde := "18:00:00", total := "08:00" }
      (by decide),
   (claim2_amended true true docTableOverlongDate true true
      (FitzResult.doc [some "Ana 01/03/2024"])).2
      [{ nome := "Ana 01 03 2024", data := "01/03/2024", entrManha := "00:00:00",
         saidManha := "00:00:00", entrTarde := "00:00:00",
         saidTarde := "00:00:00", total := "00:00:00" }]
      (by decide)
      { nome := "Ana 01 03 2024", data := "01/03/2024", entrManha := "00:00:00",
        saidManha := "00:00:00", entrTarde := "00:00:00",
        saidTarde := "00:00:00", total := "00:00:00" }
      (by decide)⟩

/-! ### Claim C10: fallback time fields always match HH:MM:SS -/

/-- Each of the five time slots of a fallback record, after the blank-
clearing pass, is a timestamp, and in particular nonempty. -/
theorem timesAt_getD_field (text : List Char) (i k : Nat) (hk : k < 5) :
    isTimeStr (blankToEmpty ((timesAt text i).getD k "")) = true
  ∧ blankToEmpty ((timesAt text i).getD k "") ≠ "" := by
  have hmem : (timesAt text i).getD k "" ∈ timesAt text i := by
    apply getD_mem_of_lt
    rw [timesAt_length]
    exact hk
  have ht := timesAt_isTime text i _ hmem
  have hnb := isTimeListExact_not_space _ ht
  rw [blankToEmpty_of_not_space _ hnb]
  refine ⟨ht, ?_⟩
  intro hnil
  rw [hnil] at ht
  exact absurd ht (by decide)

/-- Claim C10: every record produced by the fallback extractor has all four
time fields and the total matching `HH:MM:SS`; none of them is ever the
empty string — the padding sentinel actually used is `'00:00:00'`. -/
theorem claim10 (a f : Bool) (fz : FitzResult) (rs : List Record) (r : Record)
    (hrs : extrair_com_pymupdf a f fz = some rs) (hr : r ∈ rs) :
    (isTimeStr r.entrManha = true ∧ r.entrManha ≠ "")
  ∧ (isTimeStr r.saidManha = true ∧ r.saidManha ≠ "")
  ∧ (isTimeStr r.entrTarde = true ∧ r.entrTarde ≠ "")
  ∧ (isTimeStr r.saidTarde = true ∧ r.saidTarde ≠ "")
  ∧ (isTimeStr r.total = true ∧ r.total ≠ "") := by
  obtain ⟨texts, hshape⟩ := pymupdf_some_shape a f fz rs hrs
  subst hshape
  rcases List.mem_map.mp hr with ⟨r0, hr0, hpost⟩
  rcases List.mem_map.mp hr0 with ⟨i, hi, hbuild⟩
  subst hpost
  subst hbuild
  simp only [postRecord, buildRegistro]
  exact ⟨timesAt_getD_field _ i 0 (by omega), timesAt_getD_field _ i 1 (by omega),
         timesAt_getD_field _ i 2 (by omega), timesAt_getD_field _ i 3 (by omega),
         timesAt_getD_field _ i 4 (by omega)⟩

/-- Witness for C10 at a concrete extraction where all five slots are the
sentinel. -/
theorem claim10_witness :
    isTimeStr "00:00:00" = true ∧ "00:00:00" ≠ "" :=
  (claim10 true true (FitzResult.doc [some "Ana 01/03/2024"])
    [{ nome := "Ana 01 03 2024", data := "01/03/2024", entrManha := "00:00:00",
       saidManha := "00:00:00", entrTarde := "00:00:00",
       saidTarde := "00:00:00", total := "00:00:00" }]
    { nome := "Ana 01 03 2024", data := "01/03/2024", entrManha := "00:00:00",
      saidManha := "00:00:00", entrTarde := "00:00:00",
      saidTarde := "00:00:00", total := "00:00:00" }
    (by decide) (by decide)).2.2.2.2

/-! ### Claim C4 (amended): the Row Filter matches by substring -/

/-- The per-cell noise condition the filter implements: the conversion
raises, or the lowered string form contains some keyword as a substring. -/
def cellNoisy (c : Cell) : Bool :=
  match cellLowerStr c with
  | none => true
  | some ls => keywords.any (fun k => containsSub k.data ls.data)

/-- Every list starts with itself. -/
theorem startsWith_refl (l : List Char) : startsWith l l = true := by
  induction l with
  | nil => rfl
  | cons c t ih => simp [startsWith, ih]

/-- Every list contains itself as a substring. -/
theorem containsSub_refl (l : List Char) : containsSub l l = true := by
  cases l with
  | nil => rfl
  | cons c t =>
    unfold containsSub
    rw [startsWith_refl]
    rfl

/-- Amended claim C4: the Row Filter classifies a row as noise exactly when
some cell raises on conversion or contains a keyword as a case-insensitive
substring; in particular a cell equal to a keyword (case-insensitively)
makes the row noise, but so does a cell merely containing one. -/
theorem claim4_amended (row : List Cell) :
    row_contains_keywords row = row.any cellNoisy
  ∧ (∀ s, Cell.txt s ∈ row → (∃ k, k ∈ keywords ∧ pyLower s = k) →
      row_contains_keywords row = true) := by
  have h1 : ∀ row0 : List Cell, row_contains_keywords row0 = row0.any cellNoisy := by
    intro row0
    induction row0 with
    | nil => rfl
    | cons c t ih =>
      unfold row_contains_keywords
      rw [List.any_cons]
      cases hc : cellLowerStr c with
      | none => simp [cellNoisy, hc]
      | some ls =>
        simp only [cellNoisy, hc]
        by_cases hk : keywords.any (fun k => containsSub k.data ls.data) = true
        · rw [if_pos hk, hk]
          rfl
        · rw [if_neg hk, ih]
          rw [Bool.not_eq_true] at hk
          rw [hk]
          rfl
  refine ⟨h1 row, ?_⟩
  intro s hmem hex
  obtain ⟨k, hk, he⟩ := hex
  rw [h1 row, List.any_eq_true]
  refine ⟨Cell.txt s, hmem, ?_⟩
  show cellNoisy (Cell.txt s) = true
  unfold cellNoisy cellLowerStr
  rw [List.any_eq_true]
  refine ⟨k, hk, ?_⟩
  rw [he]
  exact containsSub_refl k.data

/-- Witness for the amended C4: a cell equal (case-insensitively) to the
keyword `nome` marks its row as noise. -/
theorem claim4_witness :
    row_contains_keywords [Cell.txt "Nome"] = true :=
  (claim4_amended [Cell.txt "Nome"]).2 "Nome" (by decide) ⟨"nome", by decide, by decide⟩

/-! ### Claim C3 (amended): output discipline of the Text Normalizer -/

/-- The character classes the spec permits in normalized names: word
characters, whitespace, hyphen. -/
def permittedNomeChar (c : Char) : Bool :=
  isWordChar c || isPySpace c || c == '-'

/-- The accented letters listed in the source's character class are word
characters. -/
theorem accent_word (c : Char) (h : nomeAccents.contains c = true) :
    isWordChar c = true := by
  have hmem : c ∈ nomeAccents := by simpa using h
  fin_cases hmem <;> decide

/-- Characters kept by the name character-class pass are permitted. -/
theorem keepNomeChar_permitted (c : Char) (h : keepNomeChar c = true) :
    permittedNomeChar c = true := by
  unfold keepNomeChar at h
  unfold permittedNomeChar
  simp only [Bool.or_eq_true] at h ⊢
  rcases h with ((hw | hs) | hacc) | hh
  · exact Or.inl (Or.inl hw)
  · exact Or.inl (Or.inr hs)
  · exact Or.inl (Or.inl (accent_word c hacc))
  · exact Or.inr hh

/-- Characters of the collapsed string come from the input, are the emitted
space, or are a pending whitespace character of the state. -/
theorem mem_collapseGo (l : List Char) (st : WsState) (c : Char)
    (hc : c ∈ collapseGo l st) :
    c = ' ' ∨ c ∈ l ∨ (∃ p, st = WsState.one p ∧ c = p) := by
  induction l generalizing st with
  | nil =>
    cases st with
    | norm => simp [collapseGo] at hc
    | one p =>
      simp [collapseGo] at hc
      exact Or.inr (Or.inr ⟨p, rfl, hc⟩)
    | long => simp [collapseGo] at hc
  | cons d t ih =>
    cases st with
    | norm =>
      unfold collapseGo at hc
      split at hc
      · rcases ih _ hc with h | h | ⟨p, hp, hcp⟩
        · exact Or.inl h
        · exact Or.inr (Or.inl (List.mem_cons_of_mem d h))
        · injection hp with hdp
          rw [hcp, ← hdp]
          exact Or.inr (Or.inl (List.mem_cons_self d t))
      · rcases List.mem_cons.mp hc with h | h
        · rw [h]
          exact Or.inr (Or.inl (List.mem_cons_self d t))
        · rcases ih _ h with h2 | h2 | ⟨p, hp, hcp⟩
          · exact Or.inl h2
          · exact Or.inr (Or.inl (List.mem_cons_of_mem d h2))
          · exact WsState.noConfusion hp
    | one p0 =>
      unfold collapseGo at hc
      split at hc
      · rcases List.mem_cons.mp hc with h | h
        · exact Or.inl h
        · rcases ih _ h with h2 | h2 | ⟨p, hp, hcp⟩
          · exact Or.inl h2
          · exact Or.inr (Or.inl (List.mem_cons_of_mem d h2))
          · exact WsState.noConfusion hp
      · rcases List.mem_cons.mp hc with h | h
        · exact Or.inr (Or.inr ⟨p0, rfl, h⟩)
        · rcases List.mem_cons.mp h with h2 | h2
          · rw [h2]
            exact Or.inr (Or.inl (List.mem_cons_self d t))
          · rcases ih _ h2 with h3 | h3 | ⟨p, hp, hcp⟩
            · exact Or.inl h3
            · exact Or.inr (Or.inl (List.mem_cons_of_mem d h3))
            · exact WsState.noConfusion hp
    | long =>
      unfold collapseGo at hc
      split at hc
      · rcases ih _ hc with h | h | ⟨p, hp, hcp⟩
        · exact Or.inl h
        · exact Or.inr (Or.inl (List.mem_cons_of_mem d h))
        · exact WsState.noConfusion hp
      · rcases List.mem_cons.mp hc with h | h
        · rw [h]
          exact Or.inr (Or.inl (List.mem_cons_self d t))
        · rcases ih _ h with h2 | h2 | ⟨p, hp, hcp⟩
          · exact Or.inl h2
          · exact Or.inr (Or.inl (List.mem_cons_of_mem d h2))
          · exact WsState.noConfusion hp

/-- Characters of `collapseWs l` are the space or come from `l`. -/
theorem mem_collapseWs (l : List Char) (c : Char) (hc : c ∈ collapseWs l) :
    c = ' ' ∨ c ∈ l := by
  rcases mem_collapseGo l WsState.norm c hc with h | h | ⟨p, hp, _⟩
  · exact Or.inl h
  · exact Or.inr h
  · exact WsState.noConfusion hp

/-- Members of `dropWhile` are members. -/
theorem mem_dropWhile (p : Char → Bool) (l : List Char) (a : Char)
    (h : a ∈ l.dropWhile p) : a ∈ l := by
  induction l with
  | nil => simp at h
  | cons d t ih =>
    rw [List.dropWhile_cons] at h
    split at h
    · exact List.mem_cons_of_mem d (ih h)
    · exact h

/-- Members of the stripped string are members of the original. -/
theorem mem_pyStrip (l : List Char) (c : Char) (hc : c ∈ pyStrip l) : c ∈ l := by
  unfold pyStrip at hc
  rw [List.mem_reverse] at hc
  have h1 := mem_dropWhile _ _ _ hc
  rw [List.mem_reverse] at h1
  exact mem_dropWhile _ _ _ h1

/-- The head surviving `dropWhile p` fails `p`. -/
theorem head?_dropWhile (p : Char → Bool) (l : List Char) (c : Char)
    (h : (l.dropWhile p).head? = some c) : p c = false := by
  induction l with
  | nil => simp at h
  | cons d t ih =>
    rw [List.dropWhile_cons] at h
    split at h
    · exact ih h
    · next hd =>
      simp only [List.head?_cons, Option.some.injEq] at h
      rw [← h]
      cases hpd : p d with
      | false => rfl
      | true => exact absurd hpd hd

/-- `dropWhile` only removes a prefix, so a nonempty result keeps the last
element. -/
theorem getLast?_dropWhile (p : Char → Bool) (l : List Char) (c : Char)
    (h : (l.dropWhile p).getLast? = some c) : l.getLast? = some c := by
  induction l with
  | nil => simp at h
  | cons d t ih =>
    rw [List.dropWhile_cons] at h
    split at h
    · cases t with
      | nil => simp at h
      | cons e u =>
        rw [List.getLast?_cons_cons]
        exact ih h
    · exact h

/-- The first character of a stripped string is not whitespace. -/
theorem pyStrip_head (l : List Char) (c : Char)
    (h : (pyStrip l).head? = some c) : isPySpace c = false := by
  unfold pyStrip at h
  rw [List.head?_reverse] at h
  have h2 := getLast?_dropWhile _ _ _ h
  rw [List.getLast?_reverse] at h2
  exact head?_dropWhile _ _ _ h2

/-- The last character of a stripped string is not whitespace. -/
theorem pyStrip_getLast (l : List Char) (c : Char)
    (h : (pyStrip l).getLast? = some c) : isPySpace c = false := by
  unfold pyStrip at h
  rw [List.getLast?_reverse] at h
  exact head?_dropWhile _ _ _ h

/-- Amended claim C3: `limpar_nome` is a pure function whose output contains
only permitted characters (word characters, whitespace, hyphen) and carries
no leading or trailing whitespace; it is however not idempotent
(`claim3_counterexample`), because the trailing-annotation strip runs before
punctuation is blanked, so a second application can remove a further
trailing day-label word. -/
theorem claim3_amended (x : String) :
    (∀ c ∈ (limpar_nome x).data, permittedNomeChar c = true)
  ∧ (∀ c, (limpar_nome x).data.head? = some c → isPySpace c = false)
  ∧ (∀ c, (limpar_nome x).data.getLast? = some c → isPySpace c = false) := by
  refine ⟨?_, ?_, ?_⟩
  · intro c hc
    have h1 := mem_pyStrip _ _ hc
    rcases mem_collapseWs _ _ h1 with h | h
    · rw [h]
      decide
    · rcases List.mem_map.mp h with ⟨d, _, hfd⟩
      by_cases hkeep : keepNomeChar d = true
      · rw [if_pos hkeep] at hfd
        rw [← hfd]
        exact keepNomeChar_permitted d hkeep
      · rw [if_neg hkeep] at hfd
        rw [← hfd]
        decide
  · intro c h
    exact pyStrip_head _ _ h
  · intro c h
    exact pyStrip_getLast _ _ h

/-- Witness for the amended C3 on a concrete noisy name. -/
theorem claim3_witness :
    permittedNomeChar 'A' = true ∧ isPySpace 'A' = false :=
  ⟨(claim3_amended "; Ana! ").1 'A' (by decide),
   (claim3_amended "; Ana! ").2.1 'A' (by decide)⟩

/-- Witness for C7 at the canonical one-record text, where the match starts
at offset 56: the snippet is the whole text and all five timestamps are
found, so no padding happens. -/
theorem claim7_witness :
    snippetAt "João Silva 09:00:00 12:00:00 13:00:00 18:00:00 08:00:00 01/03/2024".data 56 ++
      "João Silva 09:00:00 12:00:00 13:00:00 18:00:00 08:00:00 01/03/2024".data.drop 66 =
      "João Silva 09:00:00 12:00:00 13:00:00 18:00:00 08:00:00 01/03/2024".data.drop (56 - 400)
  ∧ (timesAt "João Silva 09:00:00 12:00:00 13:00:00 18:00:00 08:00:00 01/03/2024".data 56).length = 5
  ∧ timesAt "João Silva 09:00:00 12:00:00 13:00:00 18:00:00 08:00:00 01/03/2024".data 56 =
      takeLast 5 (findTimes (snippetAt
        "João Silva 09:00:00 12:00:00 13:00:00 18:00:00 08:00:00 01/03/2024".data 56)) :=
  ⟨(claim7 "João Silva 09:00:00 12:00:00 13:00:00 18:00:00 08:00:00 01/03/2024".data 56).2.1
      (by decide),
   (claim7 "João Silva 09:00:00 12:00:00 13:00:00 18:00:00 08:00:00 01/03/2024".data 56).2.2.1,
   (claim7 "João Silva 09:00:00 12:00:00 13:00:00 18:00:00 08:00:00 01/03/2024".data 56).2.2.2.2.2
      (by decide)⟩
